import Mathlib

/-!
Verification development for the calci-trade trading bot.

Shallow embedding of the core pipeline (scanner, strategy/sizer, executor,
reconciler, signed API client) of the repository, together with theorems
settling the specification claims.  Python integers are modelled as `Int`
(or `Nat` where the source value is evidently non-negative), Python float
formulas over integer inputs as exact rationals `ℚ` (the Python source
truncates with `int(...)`, which on non-negative values is floor division,
modelled with `Int.fdiv` / `Nat` division), Python dict/set lookups as
list lookups, and fallible effects as `Except` / oracle parameters.
-/

namespace CalciTrade

/-! ## Configuration (src/config.py)

Trading parameters are fixed literals in `config.py`; credentials are the
only env-sourced values and play no role here. -/

def SCAN_INTERVAL : Nat := 300
def YES_LOW_THRESHOLD : Int := 10
def YES_HIGH_THRESHOLD : Int := 85
def MAX_POSITION_PCT : Int := 20
def CASH_RESERVE_PCT : Int := 20
def MAX_DAILY_LOSS_PCT : Int := 15
def MAX_EXPIRY_DAYS : Nat := 7

/-! ## Scanner (src/src/scanner.py)

A `Market` models one element of the `markets` page returned by the API.
`yes_bid` / `no_bid` are `Option Int`: `none` models a missing key or a
JSON null (both of which `m.get("yes_bid", 0) or 0` coerces to `0`).
`close_parsed` models the result of `datetime.fromisoformat` on
`close_time` (after the `Z` replacement): `none` iff `close_time` is
empty or unparsable; otherwise the parsed instant, as an integer time
value comparable with the cutoff `now + MAX_EXPIRY_DAYS`. -/

structure Market where
  ticker : String
  event_ticker : String
  title : String
  yes_bid : Option Int
  no_bid : Option Int
  close_time : String
  close_parsed : Option Int
  deriving DecidableEq

structure Opportunity where
  ticker : String
  event_ticker : String
  title : String
  yes_price : Int
  no_price : Int
  side : String
  entry_price : Int
  edge : ℚ
  close_time : String
  deriving DecidableEq

/-- `round(x, 4)` on the exact rational value.  Python rounds half to even;
the edges produced by the scanner are exact multiples of 1/100, so no tie
can occur and round-half-up agrees with Python's rounding here. -/
def round4 (q : ℚ) : ℚ := (round (q * 10000) : ℚ) / 10000

/-- The expiry filter of the per-market loop: skip when `close_time` is
empty/unparsable or the parsed close time is beyond the cutoff. -/
def passesExpiry (m : Market) (cutoff : Int) : Bool :=
  match m.close_parsed with
  | none => false
  | some ct => !(ct > cutoff)

/-- Body of the per-market loop of `scan_markets` (scanner.py lines 67-108):
the expiry filter, then the longshot-fade branch, then the favorite-back
branch.  Both branches may in principle append, so the result is the list
of opportunities this market contributes, in discovery order. -/
def processMarket (m : Market) (cutoff : Int) : List Opportunity :=
  if passesExpiry m cutoff then
    let yes_price : Int := (m.yes_bid.getD 0)
    let no_price : Int := (m.no_bid.getD 0)
    let longshot : List Opportunity :=
      if 0 < yes_price ∧ yes_price < YES_LOW_THRESHOLD then
        let implied_win : ℚ := (100 - (yes_price : ℚ)) / 100
        if implied_win ≥ 9/10 then
          [{ ticker := m.ticker, event_ticker := m.event_ticker, title := m.title,
             yes_price := yes_price, no_price := no_price, side := "no",
             entry_price := 100 - yes_price, edge := round4 (implied_win - 1/2),
             close_time := m.close_time }]
        else []
      else []
    let favorite : List Opportunity :=
      if yes_price > YES_HIGH_THRESHOLD then
        let implied_win : ℚ := (yes_price : ℚ) / 100
        if implied_win ≥ 9/10 then
          [{ ticker := m.ticker, event_ticker := m.event_ticker, title := m.title,
             yes_price := yes_price, no_price := no_price, side := "yes",
             entry_price := yes_price, edge := round4 (implied_win - 1/2),
             close_time := m.close_time }]
        else []
      else []
    longshot ++ favorite
  else []

/-- `scan_markets` over the full list of markets gathered from pagination:
concatenate per-market contributions in page order, then sort by edge
descending (Python's stable `list.sort` with `reverse=True`). -/
def scanMarkets (markets : List Market) (cutoff : Int) : List Opportunity :=
  ((markets.map (processMarket · cutoff)).flatten).mergeSort
    (fun a b => decide (b.edge ≤ a.edge))

/-- Concrete sample market: a longshot with `yes_bid = 5` inside the
expiry window (used in witness statements). -/
def marketLongshot5 : Market :=
  { ticker := "M", event_ticker := "E", title := "t", yes_bid := some 5,
    no_bid := some 95, close_time := "2026-01-01T00:00:00Z",
    close_parsed := some 100 }

/-- Concrete sample market: `yes_bid` missing/null (used in witness
statements). -/
def marketNoYesBid : Market :=
  { ticker := "M2", event_ticker := "E", title := "t", yes_bid := none,
    no_bid := some 95, close_time := "2026-01-01T00:00:00Z",
    close_parsed := some 100 }

/-! ## Strategy / position sizer (src/src/strategy.py) -/

structure TradeSignal where
  opportunity : Opportunity
  quantity : Int
  reason : String
  deriving DecidableEq

/-- The rationale string built by `score_opportunities`.  The
`edge=...` percentage formatting of the f-string is abstracted to the raw
rational rendered via `toString`; no claim depends on it. -/
def signalReason (opp : Opportunity) : String :=
  (if opp.side = "no" then "Longshot fade" else "Favorite back")
    ++ ": YES@" ++ toString opp.yes_price ++ "c"

/-- The loop of `score_opportunities` (strategy.py lines 51-72).
`available` is the running budget counter, `max_per_market` the per-market
cap; both are computed by the wrapper below.  Python `//` is floor
division, i.e. `Int.fdiv`. -/
def scoreGo (open_tickers : List String) (max_per_market : Int) :
    List Opportunity → Int → List TradeSignal
  | [], _ => []
  | opp :: rest, available =>
    if opp.ticker ∈ open_tickers then
      scoreGo open_tickers max_per_market rest available
    else if available ≤ 0 then []
    else
      let budget := min max_per_market available
      let quantity := Int.fdiv budget opp.entry_price
      if quantity < 1 then scoreGo open_tickers max_per_market rest available
      else
        let cost := quantity * opp.entry_price
        { opportunity := opp, quantity := quantity, reason := signalReason opp }
          :: scoreGo open_tickers max_per_market rest (available - cost)

/-- `score_opportunities(opportunities, balance, open_tickers)`.
`int(balance * (1 - CASH_RESERVE_PCT / 100))` and
`int(balance * MAX_POSITION_PCT / 100)` truncate a float product toward
zero; for the non-negative balances the program deals in this is floor
division, `Int.fdiv`. -/
def scoreOpportunities (opportunities : List Opportunity) (balance : Int)
    (open_tickers : List String) : List TradeSignal :=
  scoreGo open_tickers (Int.fdiv (balance * MAX_POSITION_PCT) 100)
    opportunities (Int.fdiv (balance * (100 - CASH_RESERVE_PCT)) 100)

/-- Total cost (in cents) committed by a batch of signals. -/
def sumCost (signals : List TradeSignal) : Int :=
  (signals.map (fun s => s.quantity * s.opportunity.entry_price)).sum

/-- Total cost committed to one ticker by a batch of signals. -/
def perTickerCost (t : String) (signals : List TradeSignal) : Int :=
  sumCost (signals.filter (fun s => s.opportunity.ticker = t))

/-- Concrete sample opportunity (used in witness statements). -/
def oppM1 : Opportunity :=
  { ticker := "M1", event_ticker := "E1", title := "t", yes_price := 5,
    no_price := 95, side := "no", entry_price := 5, edge := 9/20,
    close_time := "c" }

/-- Concrete sample signal (used in witness statements). -/
def signalM1 : TradeSignal :=
  { opportunity := oppM1, quantity := 100, reason := "r" }

/-! ## Trade store (src/src/db.py)

A `TradeRow` is one row of the `trades` table.  The store is the list of
rows in insertion order; `id` is the autoincrement primary key (unique in
any real store — stated as a `Nodup` hypothesis where needed). -/

structure TradeRow where
  id : Nat
  market_ticker : String
  event_ticker : String
  side : String
  price : Int
  quantity : Int
  order_id : String
  client_order_id : String
  timestamp : String
  status : String
  pnl : Int
  deriving DecidableEq

/-- `Database.insert_trade`: the row a new trade is created with —
`status` is the literal `'open'` and `pnl` the column default `0`. -/
def insertTrade (id : Nat) (market_ticker event_ticker side : String)
    (price quantity : Int) (order_id client_order_id timestamp : String) :
    TradeRow :=
  { id := id, market_ticker := market_ticker, event_ticker := event_ticker,
    side := side, price := price, quantity := quantity, order_id := order_id,
    client_order_id := client_order_id, timestamp := timestamp,
    status := "open", pnl := 0 }

/-- `Database.update_trade_status`: `UPDATE trades SET status=?, pnl=?
WHERE id=?`. -/
def updateTradeStatus (store : List TradeRow) (id : Nat) (status : String)
    (pnl : Int) : List TradeRow :=
  store.map fun t => if t.id = id then { t with status := status, pnl := pnl } else t

/-- `Database.get_open_trades`: `SELECT * FROM trades WHERE status =
'open'` (the `ORDER BY timestamp DESC` only permutes the iteration order;
the per-trade decisions are independent, and we keep store order). -/
def getOpenTrades (store : List TradeRow) : List TradeRow :=
  store.filter (fun t => t.status = "open")

/-- Concrete sample row: an open trade on ticker `"T"` (used in witness
statements). -/
def rowOpenT : TradeRow :=
  { id := 1, market_ticker := "T", event_ticker := "E", side := "no",
    price := 10, quantity := 2, order_id := "o1", client_order_id := "c1",
    timestamp := "ts", status := "open", pnl := 0 }

/-- Concrete sample row: an already-settled trade on ticker `"U"` (used
in witness statements). -/
def rowSettledU : TradeRow :=
  { id := 2, market_ticker := "U", event_ticker := "E", side := "yes",
    price := 90, quantity := 1, order_id := "o2", client_order_id := "c2",
    timestamp := "ts", status := "settled", pnl := 10 }

/-! ## Reconciler (src/src/reconciler.py) -/

/-- One entry of `positions_data["market_positions"]`. -/
structure PositionEntry where
  ticker : String
  position : Int
  total_traded : Int
  deriving DecidableEq

/-- One entry of `settlements_data["settlements"]`. -/
structure Settlement where
  market_ticker : String
  revenue : Int
  deriving DecidableEq

/-- `active_tickers`: tickers of positions with non-zero `position` or
`total_traded` (reconciler.py lines 26-33). -/
def activeTickers (positions : List PositionEntry) : List String :=
  (positions.filter (fun p => p.position ≠ 0 ∨ p.total_traded ≠ 0)).map
    (fun p => p.ticker)

/-- `settled_tickers` is built as a Python dict keyed by ticker: a later
settlement for the same ticker overwrites an earlier one, so lookup
returns the value of the **last** matching entry. -/
def dictLookup (l : List (String × Int)) (k : String) : Option Int :=
  l.reverse.lookup k

/-- The `settled_tickers` dict as an association list in insertion order. -/
def settledTickers (settlements : List Settlement) : List (String × Int) :=
  settlements.map (fun s => (s.market_ticker, s.revenue))

/-- `filled_order_ids` (reconciler.py lines 52-55). -/
def filledOrderIds (fills : List String) : List String := fills

/-- The decision taken for one open trade by the loop body of
`reconcile_trades` (reconciler.py lines 61-88): `some (status, pnl)` when
the trade is updated, `none` when it is left untouched. -/
def reconcileOne (t : TradeRow) (settled : List (String × Int))
    (fills : List String) (active : List String) : Option (String × Int) :=
  let cost := t.price * t.quantity
  match dictLookup settled t.market_ticker with
  | some revenue =>
    if revenue > 0 then some ("settled", revenue - cost)
    else some ("lost", -cost)
  | none =>
    if t.order_id ≠ "" ∧ t.order_id ∉ fills ∧ t.market_ticker ∉ active then
      some ("expired", 0)
    else none

/-- The update loop of `reconcile_trades`: iterate over the captured open
list, issuing one `update_trade_status` per decided trade and counting
updates. -/
def reconcileLoop (settled : List (String × Int)) (fills : List String)
    (active : List String) :
    List TradeRow → List TradeRow → List TradeRow × Nat
  | store, [] => (store, 0)
  | store, t :: rest =>
    match reconcileOne t settled fills active with
    | some (st, pnl) =>
      let out := reconcileLoop settled fills active
        (updateTradeStatus store t.id st pnl) rest
      (out.1, out.2 + 1)
    | none => reconcileLoop settled fills active store rest

/-- `reconcile_trades(client, db)`.  The three fetches are modelled by
`Except` values: `Except.error` is a raised exception.  An empty open set
returns immediately; a positions-fetch failure aborts with zero updates
(fail-closed); settlements/fills failures degrade to empty sets
(fail-open).  Returns the resulting store and the update count. -/
def reconcileTrades (store : List TradeRow)
    (positionsRes : Except Unit (List PositionEntry))
    (settlementsRes : Except Unit (List Settlement))
    (fillsRes : Except Unit (List String)) : List TradeRow × Nat :=
  let open_trades := getOpenTrades store
  if open_trades = [] then (store, 0)
  else
    match positionsRes with
    | .error _ => (store, 0)
    | .ok positions =>
      let active := activeTickers positions
      let settled := match settlementsRes with
        | .ok ss => settledTickers ss
        | .error _ => []
      let fills := match fillsRes with
        | .ok fs => filledOrderIds fs
        | .error _ => []
      reconcileLoop settled fills active store open_trades

/-- Apply a `reconcileOne` decision to a row: write the decided status
and pnl, or leave the row untouched. -/
def applyDecision : Option (String × Int) → TradeRow → TradeRow
  | some (st, pnl), s => { s with status := st, pnl := pnl }
  | none, s => s

/-- The effect of one reconciliation pass on a single store row, given
the captured open-trade list: the decision of the **open-list entry with
the matching id** (there is at most one, ids being unique), applied to
the row; rows matching no open entry are untouched.  `reconcileLoop`
computes exactly this, row by row (proved below). -/
def applyOpen (open_trades : List TradeRow) (settled : List (String × Int))
    (fills : List String) (active : List String) (s : TradeRow) : TradeRow :=
  match open_trades.find? (fun t => t.id == s.id) with
  | some t => applyDecision (reconcileOne t settled fills active) s
  | none => s

/-! ## Executor (src/src/executor.py)

Order submission is network I/O; its outcome is modelled by an oracle
`orderOk : Nat → Bool` giving the success of the i-th submission attempt
(`create_order` + `insert_trade`; a `false` is the raised exception that
the per-signal `try/except` swallows). -/

/-- The per-signal loop of `execute_signals`: count successfully placed
orders; a failed submission is logged and skipped. -/
def placeLoop (orderOk : Nat → Bool) : List TradeSignal → Nat → Nat
  | [], _ => 0
  | _ :: rest, i =>
    (if orderOk i then 1 else 0) + placeLoop orderOk rest (i + 1)

/-- `execute_signals(signals, client, db, balance)`.  `daily_pnl` is the
value returned by `db.get_daily_pnl()`, `paused` the settings value for
key `"paused"` (default `"false"`).  `int(balance * MAX_DAILY_LOSS_PCT /
100)` is floor division for the non-negative balances the program deals
in. -/
def executeSignals (signals : List TradeSignal) (daily_pnl : Int)
    (paused : String) (balance : Int) (orderOk : Nat → Bool) : Nat :=
  let daily_loss_limit := -(Int.fdiv (balance * MAX_DAILY_LOSS_PCT) 100)
  if daily_pnl ≤ daily_loss_limit then 0
  else if paused = "true" then 0
  else placeLoop orderOk signals 0

/-! ## Signed API client: retry loop (src/src/kalshi_client.py, `_request`)

One HTTP attempt either raises a timeout (`httpx.TimeoutException`) or
yields a response with a status code; `raise_for_status` raises
`HTTPStatusError` on any code ≥ 400.  The network is an oracle mapping
the attempt index (0-based) to its outcome; the wall clock feeding
`_sign_request`'s `time.time()` is an oracle `tsSeq` mapping the index of
the signing call to the millisecond timestamp it observes. -/

inductive AttemptOutcome where
  | timeout
  | response (code : Nat) (body : String)
  deriving DecidableEq

inductive ReqError where
  | timeoutErr
  | statusErr (code : Nat)
  deriving DecidableEq

instance {ε α : Type} [DecidableEq ε] [DecidableEq α] :
    DecidableEq (Except ε α) := fun a b =>
  match a, b with
  | .error e₁, .error e₂ =>
    if h : e₁ = e₂ then .isTrue (by rw [h]) else .isFalse (by simp [h])
  | .ok v₁, .ok v₂ =>
    if h : v₁ = v₂ then .isTrue (by rw [h]) else .isFalse (by simp [h])
  | .error _, .ok _ => .isFalse (by simp)
  | .ok _, .error _ => .isFalse (by simp)

/-- Observable result of `_request`: the returned body or raised error,
the list of backoff sleeps (seconds, in order), and the timestamps of the
signing calls performed (in order). -/
structure RequestTrace where
  result : Except ReqError String
  sleeps : List Nat
  signTimestamps : List Nat
  deriving DecidableEq

/-- The `for attempt in range(max_retries)` loop of `_request`
(kalshi_client.py lines 101-134), recursing on the remaining attempt
count `fuel` (initially `max_retries`, so `attempt < max_retries - 1` iff
`1 < fuel`).  On a retained timeout or 5xx with attempts remaining, the
code sleeps `2 * (attempt + 1)` seconds and re-signs (signing call number
`attempt + 1`, the initial pre-loop signature being call 0).  A 4xx, or a
5xx on the final attempt, is raised immediately; after the loop the last
transient error is raised. -/
def requestGo (outcomes : Nat → AttemptOutcome) (tsSeq : Nat → Nat) :
    Nat → Nat → Option ReqError → RequestTrace
  | _, 0, lastExc =>
    { result := .error (lastExc.getD .timeoutErr), sleeps := [], signTimestamps := [] }
  | attempt, fuel + 1, _ =>
    match outcomes attempt with
    | .response code body =>
      if code < 400 then
        { result := .ok body, sleeps := [], signTimestamps := [] }
      else if 500 ≤ code ∧ 1 ≤ fuel then
        let t := requestGo outcomes tsSeq (attempt + 1) fuel (some (.statusErr code))
        { result := t.result, sleeps := 2 * (attempt + 1) :: t.sleeps,
          signTimestamps := tsSeq (attempt + 1) :: t.signTimestamps }
      else
        { result := .error (.statusErr code), sleeps := [], signTimestamps := [] }
    | .timeout =>
      if 1 ≤ fuel then
        let t := requestGo outcomes tsSeq (attempt + 1) fuel (some .timeoutErr)
        { result := t.result, sleeps := 2 * (attempt + 1) :: t.sleeps,
          signTimestamps := tsSeq (attempt + 1) :: t.signTimestamps }
      else
        { result := .error .timeoutErr, sleeps := [], signTimestamps := [] }

/-- `_request`: sign once up front (signing call 0), then run the attempt
loop; `max_retries` defaults to 3 at every call site in the source. -/
def clientRequest (outcomes : Nat → AttemptOutcome) (tsSeq : Nat → Nat)
    (max_retries : Nat) : RequestTrace :=
  let t := requestGo outcomes tsSeq 0 max_retries none
  { t with signTimestamps := tsSeq 0 :: t.signTimestamps }

/-- Concrete network oracle: attempts 0 and 1 time out, every later
attempt returns HTTP 200 (used in witness statements). -/
def sampleOutcomes : Nat → AttemptOutcome := fun n =>
  if n = 0 ∨ n = 1 then .timeout else .response 200 "ok"

/-- Concrete clock oracle for signing timestamps (used in witness
statements). -/
def sampleTsSeq : Nat → Nat := fun i => 1700000000000 + i

/-! ## Signed API client: request signing (src/src/kalshi_client.py, `_sign_request`)

`_sign_request` builds `message = f"{timestamp_ms}{method.upper()}{path}"`
and signs it with RSA-PSS (SHA-256 digest, MGF1 with SHA-256, salt length
= digest length = 32).  The `cryptography` library draws the 32-byte salt
from the OS RNG on every call; the embedding makes the salt an explicit
input.  Below: byte strings are `List Nat` (each element < 256 by
construction), and SHA-256 / MGF1 / EMSA-PSS / RSASP1 are implemented
from FIPS 180-4 and RFC 8017, which is what the library executes. -/

/-- 2^32, the word modulus of SHA-256. -/
def M32 : Nat := 4294967296

/-- Right-rotation of a 32-bit word. -/
def rotr (n x : Nat) : Nat := ((x >>> n) ||| (x <<< (32 - n))) % M32

/-- Big-endian byte serialization of `k` into `n` bytes. -/
def toBytesBE : Nat → Nat → List Nat
  | 0, _ => []
  | n + 1, k => toBytesBE n (k / 256) ++ [k % 256]

/-- Big-endian byte-string-to-integer conversion (OS2IP). -/
def os2ip (bytes : List Nat) : Nat :=
  bytes.foldl (fun acc b => acc * 256 + b) 0

/-- The 64 SHA-256 round constants (FIPS 180-4 section 4.2.2), as
decimal numerals. -/
def sha256K : List Nat :=
  [1116352408, 1899447441, 3049323471, 3921009573, 961987163,
   1508970993, 2453635748, 2870763221, 3624381080, 310598401,
   607225278, 1426881987, 1925078388, 2162078206, 2614888103,
   3248222580, 3835390401, 4022224774, 264347078, 604807628,
   770255983, 1249150122, 1555081692, 1996064986, 2554220882,
   2821834349, 2952996808, 3210313671, 3336571891, 3584528711,
   113926993, 338241895, 666307205, 773529912, 1294757372,
   1396182291, 1695183700, 1986661051, 2177026350, 2456956037,
   2730485921, 2820302411, 3259730800, 3345764771, 3516065817,
   3600352804, 4094571909, 275423344, 430227734, 506948616,
   659060556, 883997877, 958139571, 1322822218, 1537002063,
   1747873779, 1955562222, 2024104815, 2227730452, 2361852424,
   2428436474, 2756734187, 3204031479, 3329325298]

/-- The eight SHA-256 initial hash values (FIPS 180-4 section 5.3.3),
as decimal numerals. -/
def sha256H0 : List Nat :=
  [1779033703, 3144134277, 1013904242, 2773480762,
   1359893119, 2600822924, 528734635, 1541459225]

/-- SHA-256 message padding: `0x80`, zeros to 56 mod 64, then the bit
length as a 64-bit big-endian integer. -/
def sha256Pad (msg : List Nat) : List Nat :=
  let L := msg.length
  let zeros := (55 + 64 - L % 64) % 64
  msg ++ [0x80] ++ List.replicate zeros 0 ++ toBytesBE 8 (8 * L)

/-- Split a byte string into 64-byte blocks. -/
def chunks64Aux : Nat → List Nat → List (List Nat)
  | 0, _ => []
  | _, [] => []
  | fuel + 1, a :: rest => (a :: rest.take 63) :: chunks64Aux fuel (rest.drop 63)

/-- Split a byte string into 64-byte blocks (the fuel `l.length` strictly
dominates the block count, so it never runs out). -/
def chunks64 (l : List Nat) : List (List Nat) := chunks64Aux l.length l

/-- Big-endian 32-bit words from bytes. -/
def bytesToWords : List Nat → List Nat
  | a :: b :: c :: d :: rest =>
    (((a * 256 + b) * 256 + c) * 256 + d) :: bytesToWords rest
  | _ => []

/-- Message-schedule extension: append `n` more words to `w`. -/
def extendW : Nat → List Nat → List Nat
  | 0, w => w
  | n + 1, w =>
    let i := w.length
    let x15 := w.getD (i - 15) 0
    let x2 := w.getD (i - 2) 0
    let s0 := (rotr 7 x15) ^^^ (rotr 18 x15) ^^^ (x15 >>> 3)
    let s1 := (rotr 17 x2) ^^^ (rotr 19 x2) ^^^ (x2 >>> 10)
    extendW n (w ++ [(w.getD (i - 16) 0 + s0 + w.getD (i - 7) 0 + s1) % M32])

/-- The eight SHA-256 working variables. -/
structure Hash8 where
  a : Nat
  b : Nat
  c : Nat
  d : Nat
  e : Nat
  f : Nat
  g : Nat
  h : Nat
  deriving DecidableEq

/-- One SHA-256 compression round, consuming a pair `(kᵢ, wᵢ)`. -/
def sha256Round (st : Hash8) (kw : Nat × Nat) : Hash8 :=
  let S1 := (rotr 6 st.e) ^^^ (rotr 11 st.e) ^^^ (rotr 25 st.e)
  let ch := (st.e &&& st.f) ^^^ ((4294967295 ^^^ st.e) &&& st.g)
  let temp1 := (st.h + S1 + ch + kw.1 + kw.2) % M32
  let S0 := (rotr 2 st.a) ^^^ (rotr 13 st.a) ^^^ (rotr 22 st.a)
  let maj := (st.a &&& st.b) ^^^ (st.a &&& st.c) ^^^ (st.b &&& st.c)
  let temp2 := (S0 + maj) % M32
  { a := (temp1 + temp2) % M32, b := st.a, c := st.b, d := st.c,
    e := (st.d + temp1) % M32, f := st.e, g := st.f, h := st.g }

/-- Compress one 64-byte block into the running hash state. -/
def sha256Block (hs : List Nat) (block : List Nat) : List Nat :=
  let w := extendW 48 (bytesToWords block)
  let st0 : Hash8 :=
    { a := hs.getD 0 0, b := hs.getD 1 0, c := hs.getD 2 0, d := hs.getD 3 0,
      e := hs.getD 4 0, f := hs.getD 5 0, g := hs.getD 6 0, h := hs.getD 7 0 }
  let st := (sha256K.zip w).foldl sha256Round st0
  [(st0.a + st.a) % M32, (st0.b + st.b) % M32, (st0.c + st.c) % M32,
   (st0.d + st.d) % M32, (st0.e + st.e) % M32, (st0.f + st.f) % M32,
   (st0.g + st.g) % M32, (st0.h + st.h) % M32]

/-- SHA-256 of a byte string, as 32 bytes. -/
def sha256 (msg : List Nat) : List Nat :=
  (((chunks64 (sha256Pad msg)).foldl sha256Block sha256H0).map
    (toBytesBE 4)).flatten

/-- MGF1 with SHA-256 (RFC 8017 B.2.1). -/
def mgf1 (seed : List Nat) (len : Nat) : List Nat :=
  (((List.range ((len + 31) / 32)).map
    (fun c => sha256 (seed ++ toBytesBE 4 c))).flatten).take len

/-- EMSA-PSS-ENCODE (RFC 8017 9.1.1) with SHA-256 and an explicit salt. -/
def pssEncode (msg salt : List Nat) (emBits : Nat) : List Nat :=
  let hLen := 32
  let sLen := salt.length
  let emLen := (emBits + 7) / 8
  let mHash := sha256 msg
  let mPrime := List.replicate 8 0 ++ mHash ++ salt
  let H := sha256 mPrime
  let ps := List.replicate (emLen - sLen - hLen - 2) 0
  let db := ps ++ [1] ++ salt
  let dbMask := mgf1 H (emLen - hLen - 1)
  let maskedDB := (db.zip dbMask).map (fun p => p.1 ^^^ p.2)
  let clearBits := 8 * emLen - emBits
  let maskedDB := match maskedDB with
    | [] => []
    | b :: rest => (b &&& (255 >>> clearBits)) :: rest
  maskedDB ++ H ++ [0xbc]

/-- Strict application: forces its argument to a numeral before passing
it on, keeping kernel reduction of the loops below in constant stack. -/
def strictCont (x : Nat) (k : Nat → Nat) : Nat :=
  match x with
  | 0 => k 0
  | m + 1 => k (m + 1)

def powModAux (n : Nat) : Nat → Nat → Nat → Nat → Nat
  | 0, _, _, acc => acc
  | fuel + 1, b, e, acc =>
    if e = 0 then acc
    else
      strictCont (if e % 2 = 1 then (acc * b) % n else acc) fun acc2 =>
      strictCont ((b * b) % n) fun b2 =>
        powModAux n fuel b2 (e / 2) acc2

/-- Modular exponentiation `b ^ e mod n` by right-to-left binary
exponentiation (the fuel `e` strictly dominates the number of halvings,
so it never runs out). -/
def powMod (n : Nat) (b : Nat) (e : Nat) : Nat :=
  powModAux n e (b % n) e (1 % n)

/-- An RSA private key, as the modulus and private exponent. -/
structure RSAPrivateKey where
  n : Nat
  d : Nat
  deriving DecidableEq

def bitLenAux : Nat → Nat → Nat
  | 0, _ => 0
  | fuel + 1, n => if n = 0 then 0 else bitLenAux fuel (n / 2) + 1

/-- `int.bit_length`: number of bits of `n` (the fuel `n` strictly
dominates the number of halvings, so it never runs out). -/
def bitLen (n : Nat) : Nat := bitLenAux n n

/-- RSA-PSS signature generation (RFC 8017 8.1.1): EMSA-PSS-ENCODE over
`modBits - 1` bits, then RSASP1, then I2OSP to the modulus byte length. -/
def rsaPssSign (key : RSAPrivateKey) (msg salt : List Nat) : List Nat :=
  let modBits := bitLen key.n
  let em := pssEncode msg salt (modBits - 1)
  toBytesBE ((modBits + 7) / 8) (powMod key.n (os2ip em) key.d)

/-- The base64 alphabet. -/
def base64Alphabet : List Char :=
  "ABCDEFGHIJKLMNOPQRSTUVWXYZabcdefghijklmnopqrstuvwxyz0123456789+/".toList

/-- Standard base64 with padding (`base64.b64encode`). -/
def base64Encode : List Nat → String
  | [] => ""
  | [a] =>
    String.mk [base64Alphabet.getD (a / 4) 'A',
               base64Alphabet.getD ((a % 4) * 16) 'A', '=', '=']
  | [a, b] =>
    String.mk [base64Alphabet.getD (a / 4) 'A',
               base64Alphabet.getD ((a % 4) * 16 + b / 16) 'A',
               base64Alphabet.getD ((b % 16) * 4) 'A', '=']
  | a :: b :: c :: rest =>
    String.mk [base64Alphabet.getD (a / 4) 'A',
               base64Alphabet.getD ((a % 4) * 16 + b / 16) 'A',
               base64Alphabet.getD ((b % 16) * 4 + c / 64) 'A',
               base64Alphabet.getD (c % 64) 'A'] ++ base64Encode rest

/-- UTF-8 bytes of an ASCII string (timestamps, HTTP methods and URL
paths are ASCII, where UTF-8 is the identity on code points). -/
def strBytes (s : String) : List Nat := s.data.map (fun c => c.toNat)

/-- The three auth headers returned by `_sign_request`. -/
structure AuthHeaders where
  accessKey : String
  timestamp : String
  signature : String
  deriving DecidableEq

/-- `method.upper()` for the ASCII method strings the client uses. -/
def asciiUpper (s : String) : String := String.mk (s.data.map Char.toUpper)

/-- `_sign_request(method, path)` with the sampled millisecond timestamp
and the PSS salt made explicit inputs: builds
`message = f"{timestamp_ms}{method.upper()}{path}"`, signs it with
RSA-PSS/SHA-256 (salt length 32 = digest length), and returns the three
headers with the signature base64-encoded. -/
def signRequest (apiKey : String) (key : RSAPrivateKey) (timestampMs : Nat)
    (method path : String) (salt : List Nat) : AuthHeaders :=
  let ts := toString timestampMs
  let message := ts ++ asciiUpper method ++ path
  { accessKey := apiKey, timestamp := ts,
    signature := base64Encode (rsaPssSign key (strBytes message) salt) }

/-- A concrete 1023-bit RSA key (generated once, for the concrete
evaluations below). -/
def sampleKey : RSAPrivateKey :=
  { n := 77650653673682003687494267627597200423940944606471887031283198704617400384961065594262878179247523531689087748050626142906756623775929396866115569920332406993660963712468018631931266122464649509753244738511650484947219083868737529517191070227066824739182859700635666438236974193526678946204096660565165797431,
    d := 55110317138776127035360496668483888235939471695085629209241732477041505471805148908035907239442453301638075261685441411493079799833526161350590254416656551558207904871581406901144484515760515596674066051280738940345615365172273349881036563711452166188901922997955549576828549351547973110506732159901378152273 }

/-! ## Supporting lemmas: position sizer -/

/-- In the emit branch of the sizing loop (`quantity ≥ 1`), the entry
price is necessarily positive and the cost is at most the budget. -/
theorem scoreGo_emit_facts (cap avail e : Int) (hcap : 0 ≤ cap)
    (havail : 0 ≤ avail) (hq1 : 1 ≤ Int.fdiv (min cap avail) e) :
    0 < e ∧ Int.fdiv (min cap avail) e * e ≤ min cap avail := by
  have hb0 : 0 ≤ min cap avail := le_min hcap havail
  have hep : 0 < e := by
    rcases lt_trichotomy e 0 with hneg | hzero | hpos
    · have := Int.fdiv_nonpos hb0 (le_of_lt hneg)
      omega
    · rw [hzero] at hq1
      simp [Int.fdiv_zero] at hq1
    · exact hpos
  refine ⟨hep, ?_⟩
  rw [Int.fdiv_eq_ediv _ (le_of_lt hep)]
  exact Int.ediv_mul_le _ (ne_of_gt hep)

/-- Every signal the sizing loop emits was sized in the `quantity ≥ 1`
branch, with a positive entry price and a cost of at most
`min max_per_market available`. -/
theorem scoreGo_mem (ot : List String) (cap : Int) (hcap : 0 ≤ cap) :
    ∀ (opps : List Opportunity) (avail : Int), 0 ≤ avail →
      ∀ s ∈ scoreGo ot cap opps avail,
        1 ≤ s.quantity ∧ 0 < s.opportunity.entry_price ∧
          s.quantity * s.opportunity.entry_price ≤ min cap avail := by
  intro opps
  induction opps with
  | nil => intro avail _ s hs; simp [scoreGo] at hs
  | cons opp rest ih =>
    intro avail havail s hs
    rw [scoreGo] at hs
    by_cases hmem : opp.ticker ∈ ot
    · simp only [if_pos hmem] at hs
      exact ih avail havail s hs
    · simp only [if_neg hmem] at hs
      by_cases hav : avail ≤ 0
      · simp [if_pos hav] at hs
      · simp only [if_neg hav] at hs
        by_cases hq1 : Int.fdiv (min cap avail) opp.entry_price < 1
        · simp only [if_pos hq1] at hs
          exact ih avail havail s hs
        · simp only [if_neg hq1] at hs
          push_neg at hq1
          obtain ⟨hep, hcost⟩ := scoreGo_emit_facts cap avail _ hcap havail hq1
          rcases List.mem_cons.mp hs with hs | hs
          · subst hs
            exact ⟨hq1, hep, hcost⟩
          · have hqpos : 0 < Int.fdiv (min cap avail) opp.entry_price := by omega
            have hcpos : 0 < Int.fdiv (min cap avail) opp.entry_price * opp.entry_price :=
              mul_pos hqpos hep
            have havail2 : (0:Int) ≤
                avail - Int.fdiv (min cap avail) opp.entry_price * opp.entry_price := by
              have := min_le_right cap avail
              omega
            have := ih _ havail2 s hs
            refine ⟨this.1, this.2.1, le_trans this.2.2 (min_le_min le_rfl (by omega))⟩

/-- The total cost the sizing loop commits never exceeds the initial
value of the running counter. -/
theorem scoreGo_sumCost (ot : List String) (cap : Int) (hcap : 0 ≤ cap) :
    ∀ (opps : List Opportunity) (avail : Int), 0 ≤ avail →
      sumCost (scoreGo ot cap opps avail) ≤ avail := by
  intro opps
  induction opps with
  | nil => intro avail h; simpa [scoreGo, sumCost] using h
  | cons opp rest ih =>
    intro avail havail
    rw [scoreGo]
    by_cases hmem : opp.ticker ∈ ot
    · simp only [if_pos hmem]; exact ih avail havail
    · simp only [if_neg hmem]
      by_cases hav : avail ≤ 0
      · simpa [if_pos hav, sumCost] using havail
      · simp only [if_neg hav]
        by_cases hq1 : Int.fdiv (min cap avail) opp.entry_price < 1
        · simp only [if_pos hq1]; exact ih avail havail
        · simp only [if_neg hq1]
          push_neg at hq1
          obtain ⟨hep, hcost⟩ := scoreGo_emit_facts cap avail _ hcap havail hq1
          have hble : min cap avail ≤ avail := min_le_right cap avail
          have havail2 : (0:Int) ≤
              avail - Int.fdiv (min cap avail) opp.entry_price * opp.entry_price := by
            omega
          have hrest := ih _ havail2
          simp only [sumCost, List.map_cons, List.sum_cons] at hrest ⊢
          omega

/-- Floor division by 100 is bounded by the exact rational quotient. -/
theorem fdiv100_cast_le (x : Int) : ((Int.fdiv x 100 : Int) : ℚ) ≤ (x : ℚ) / 100 := by
  rw [Int.fdiv_eq_ediv _ (by norm_num)]
  rw [le_div_iff₀ (by norm_num : (0:ℚ) < 100)]
  exact_mod_cast Int.ediv_mul_le x (by norm_num)

/-- The opportunities of the emitted signals form a sublist of the input
opportunity list (each input position emits at most one signal). -/
theorem scoreGo_opportunity_sublist (ot : List String) (cap : Int) :
    ∀ (opps : List Opportunity) (avail : Int),
      ((scoreGo ot cap opps avail).map (fun s => s.opportunity)).Sublist opps := by
  intro opps
  induction opps with
  | nil => intro avail; simp [scoreGo]
  | cons opp rest ih =>
    intro avail
    rw [scoreGo]
    by_cases hmem : opp.ticker ∈ ot
    · simp only [if_pos hmem]
      exact (ih avail).cons opp
    · simp only [if_neg hmem]
      by_cases hav : avail ≤ 0
      · simp [if_pos hav]
      · simp only [if_neg hav]
        by_cases hq1 : Int.fdiv (min cap avail) opp.entry_price < 1
        · simp only [if_pos hq1]
          exact (ih avail).cons opp
        · simp only [if_neg hq1, List.map_cons]
          exact (ih _).cons₂ opp

/-- If the images of a list are pairwise distinct, at most one element
maps to any given image, so a filter pinning the image keeps at most one
element. -/
theorem length_filter_le_one_of_nodup_map {α β : Type} (f : α → β) (b : β)
    (p : α → Bool) (hp : ∀ a, p a = true → f a = b) :
    ∀ l : List α, (l.map f).Nodup → (l.filter p).length ≤ 1 := by
  intro l
  induction l with
  | nil => intro _; simp
  | cons x rest ih =>
    intro hnd
    rw [List.map_cons, List.nodup_cons] at hnd
    by_cases hx : p x = true
    · rw [List.filter_cons_of_pos hx]
      have hrest : rest.filter p = [] := by
        rw [List.filter_eq_nil_iff]
        intro y hy hpy
        exact absurd (by
          rw [hp x hx, ← hp y hpy]
          exact List.mem_map_of_mem f hy) hnd.1
      rw [hrest]
      simp
    · rw [List.filter_cons_of_neg (by simpa using hx)]
      exact ih hnd.2

/-! ## Claim theorems -/

/-- C1: for every opportunity list (with the positive entry prices the
scanner produces — a zero price would make the Python `//` raise),
non-negative balance and open-tickers set, every `TradeSignal` emitted by
`score_opportunities` has `quantity ≥ 1`, and the total cost
`Σ quantity * entry_price` of the emitted signals never exceeds
`balance * (1 - CASH_RESERVE_PCT/100)`. -/
theorem score_opportunities_quantity_and_total_budget
    (opps : List Opportunity) (balance : Int) (open_tickers : List String)
    (hb : 0 ≤ balance) (_hpos : ∀ o ∈ opps, 0 < o.entry_price) :
    (∀ s ∈ scoreOpportunities opps balance open_tickers, 1 ≤ s.quantity) ∧
      ((sumCost (scoreOpportunities opps balance open_tickers) : ℚ) ≤
        (balance : ℚ) * (1 - (CASH_RESERVE_PCT : ℚ) / 100)) := by
  have hcap : (0:Int) ≤ Int.fdiv (balance * MAX_POSITION_PCT) 100 :=
    Int.fdiv_nonneg (mul_nonneg hb (by norm_num [MAX_POSITION_PCT])) (by norm_num)
  have havail : (0:Int) ≤ Int.fdiv (balance * (100 - CASH_RESERVE_PCT)) 100 :=
    Int.fdiv_nonneg
      (mul_nonneg hb (by norm_num [CASH_RESERVE_PCT])) (by norm_num)
  constructor
  · intro s hs
    exact (scoreGo_mem open_tickers _ hcap opps _ havail s hs).1
  · have h1 : sumCost (scoreOpportunities opps balance open_tickers) ≤
        Int.fdiv (balance * (100 - CASH_RESERVE_PCT)) 100 :=
      scoreGo_sumCost open_tickers _ hcap opps _ havail
    have h2 : ((Int.fdiv (balance * (100 - CASH_RESERVE_PCT)) 100 : Int) : ℚ) ≤
        ((balance * (100 - CASH_RESERVE_PCT) : Int) : ℚ) / 100 :=
      fdiv100_cast_le _
    have h3 : ((balance * (100 - CASH_RESERVE_PCT) : Int) : ℚ) / 100 =
        (balance : ℚ) * (1 - (CASH_RESERVE_PCT : ℚ) / 100) := by
      push_cast
      ring
    calc (sumCost (scoreOpportunities opps balance open_tickers) : ℚ)
        ≤ ((Int.fdiv (balance * (100 - CASH_RESERVE_PCT)) 100 : Int) : ℚ) := by
          exact_mod_cast h1
      _ ≤ (balance : ℚ) * (1 - (CASH_RESERVE_PCT : ℚ) / 100) := h3 ▸ h2

/-- Witness for C1 at the spec's worked scenario: balance 100000,
one longshot opportunity at entry price 5. -/
theorem score_opportunities_quantity_and_total_budget_witness :
    (0:Int) ≤ 100000 ∧
    (∀ o ∈ [({ ticker := "M1", event_ticker := "E1", title := "t",
               yes_price := 5, no_price := 95, side := "no", entry_price := 5,
               edge := 9/20, close_time := "c" } : Opportunity)],
       0 < o.entry_price) ∧
    ((∀ s ∈ scoreOpportunities
        [{ ticker := "M1", event_ticker := "E1", title := "t",
           yes_price := 5, no_price := 95, side := "no", entry_price := 5,
           edge := 9/20, close_time := "c" }] 100000 [], 1 ≤ s.quantity) ∧
      ((sumCost (scoreOpportunities
          [{ ticker := "M1", event_ticker := "E1", title := "t",
             yes_price := 5, no_price := 95, side := "no", entry_price := 5,
             edge := 9/20, close_time := "c" }] 100000 []) : ℚ) ≤
        (100000 : ℚ) * (1 - (CASH_RESERVE_PCT : ℚ) / 100))) :=
  ⟨by norm_num, by decide,
    score_opportunities_quantity_and_total_budget _ _ _ (by norm_num) (by decide)⟩

/-- C4 counterexample: with the same ticker occurring twice in the
opportunity list (balance 1000, entry price 100 — both entries positive
and the balance non-negative), the sizer allocates the full per-market
cap twice to ticker `"T"`: 400 cents committed against the cap
`1000 * MAX_POSITION_PCT/100 = 200`.  `open_tickers` is not updated as
signals are emitted, so the second occurrence is sized independently. -/
theorem per_ticker_cap_counterexample :
    ¬ ((perTickerCost "T" (scoreOpportunities
        [{ ticker := "T", event_ticker := "E", title := "t", yes_price := 0,
           no_price := 0, side := "no", entry_price := 100, edge := 0,
           close_time := "c" },
         { ticker := "T", event_ticker := "E", title := "t", yes_price := 0,
           no_price := 0, side := "no", entry_price := 100, edge := 0,
           close_time := "c" }] 1000 []) : ℚ) ≤
      (1000 : ℚ) * (MAX_POSITION_PCT : ℚ) / 100) := by
  have h : perTickerCost "T" (scoreOpportunities
      [{ ticker := "T", event_ticker := "E", title := "t", yes_price := 0,
         no_price := 0, side := "no", entry_price := 100, edge := 0,
         close_time := "c" },
       { ticker := "T", event_ticker := "E", title := "t", yes_price := 0,
         no_price := 0, side := "no", entry_price := 100, edge := 0,
         close_time := "c" }] 1000 []) = 400 := by decide
  rw [h]
  norm_num [MAX_POSITION_PCT]

/-- C4 (amended): provided each ticker occurs at most once in the
opportunity list — true of scanner output, where the two filters are
mutually exclusive for one market — the cost committed to any single
ticker in one cycle never exceeds `balance * MAX_POSITION_PCT/100`. -/
theorem per_ticker_cap_unique_tickers
    (opps : List Opportunity) (balance : Int) (open_tickers : List String)
    (tk : String) (hb : 0 ≤ balance) (_hpos : ∀ o ∈ opps, 0 < o.entry_price)
    (hnd : (opps.map (fun o => o.ticker)).Nodup) :
    (perTickerCost tk (scoreOpportunities opps balance open_tickers) : ℚ) ≤
      (balance : ℚ) * (MAX_POSITION_PCT : ℚ) / 100 := by
  have hcap : (0:Int) ≤ Int.fdiv (balance * MAX_POSITION_PCT) 100 :=
    Int.fdiv_nonneg (mul_nonneg hb (by norm_num [MAX_POSITION_PCT])) (by norm_num)
  have havail : (0:Int) ≤ Int.fdiv (balance * (100 - CASH_RESERVE_PCT)) 100 :=
    Int.fdiv_nonneg
      (mul_nonneg hb (by norm_num [CASH_RESERVE_PCT])) (by norm_num)
  have hcapq : ((Int.fdiv (balance * MAX_POSITION_PCT) 100 : Int) : ℚ) ≤
      (balance : ℚ) * (MAX_POSITION_PCT : ℚ) / 100 := by
    have := fdiv100_cast_le (balance * MAX_POSITION_PCT)
    calc ((Int.fdiv (balance * MAX_POSITION_PCT) 100 : Int) : ℚ)
        ≤ ((balance * MAX_POSITION_PCT : Int) : ℚ) / 100 := this
      _ = (balance : ℚ) * (MAX_POSITION_PCT : ℚ) / 100 := by push_cast; ring
  set sigs := scoreOpportunities opps balance open_tickers with hsigs
  have hsub : (sigs.map (fun s => s.opportunity.ticker)).Sublist
      (opps.map (fun o => o.ticker)) := by
    have h0 := scoreGo_opportunity_sublist open_tickers
      (Int.fdiv (balance * MAX_POSITION_PCT) 100) opps
      (Int.fdiv (balance * (100 - CASH_RESERVE_PCT)) 100)
    have h1 := h0.map (fun o => o.ticker)
    rw [List.map_map] at h1
    exact h1
  have hnds : (sigs.map (fun s => s.opportunity.ticker)).Nodup :=
    List.Nodup.sublist hsub hnd
  have hlen := length_filter_le_one_of_nodup_map
    (fun s => s.opportunity.ticker) tk
    (fun s => decide (s.opportunity.ticker = tk))
    (fun a ha => by simpa using ha) sigs hnds
  have hbound : ∀ s ∈ sigs, s.quantity * s.opportunity.entry_price ≤
      Int.fdiv (balance * MAX_POSITION_PCT) 100 := by
    intro s hs
    exact le_trans (scoreGo_mem open_tickers _ hcap opps _ havail s hs).2.2
      (min_le_left _ _)
  unfold perTickerCost
  rcases hfl : sigs.filter (fun s => decide (s.opportunity.ticker = tk)) with
    _ | ⟨s, rest⟩
  · rw [hfl]
    simp only [sumCost, List.map_nil, List.sum_nil, Int.cast_zero]
    apply div_nonneg _ (by norm_num)
    exact mul_nonneg (by exact_mod_cast hb) (by norm_num [MAX_POSITION_PCT])
  · rcases rest with _ | ⟨s2, rest2⟩
    · have hmem : s ∈ sigs := List.mem_of_mem_filter (by rw [hfl]; simp)
      rw [hfl]
      simp only [sumCost, List.map_cons, List.map_nil, List.sum_cons,
        List.sum_nil, add_zero]
      calc ((s.quantity * s.opportunity.entry_price : Int) : ℚ)
          ≤ ((Int.fdiv (balance * MAX_POSITION_PCT) 100 : Int) : ℚ) := by
            exact_mod_cast hbound s hmem
        _ ≤ (balance : ℚ) * (MAX_POSITION_PCT : ℚ) / 100 := hcapq
    · rw [hfl] at hlen
      simp at hlen

/-- Witness for C4's amended claim: one opportunity on ticker `"T"` at
entry price 100 with balance 1000 commits exactly the cap, 200 ≤ 200. -/
theorem per_ticker_cap_unique_tickers_witness :
    (0:Int) ≤ 1000 ∧
    (∀ o ∈ [({ ticker := "T", event_ticker := "E", title := "t",
               yes_price := 0, no_price := 0, side := "no", entry_price := 100,
               edge := 0, close_time := "c" } : Opportunity)],
       0 < o.entry_price) ∧
    (([({ ticker := "T", event_ticker := "E", title := "t", yes_price := 0,
          no_price := 0, side := "no", entry_price := 100, edge := 0,
          close_time := "c" } : Opportunity)].map
        (fun o => o.ticker)).Nodup) ∧
    ((perTickerCost "T" (scoreOpportunities
        [{ ticker := "T", event_ticker := "E", title := "t", yes_price := 0,
           no_price := 0, side := "no", entry_price := 100, edge := 0,
           close_time := "c" }] 1000 []) : ℚ) ≤
      (1000 : ℚ) * (MAX_POSITION_PCT : ℚ) / 100) :=
  ⟨by norm_num, by decide, by decide,
    per_ticker_cap_unique_tickers _ _ _ _ (by norm_num) (by decide) (by decide)⟩

/-! ## Supporting lemmas: reconciler -/

/-- `find?` returns the unique element satisfying the predicate. -/
theorem find?_eq_some_of_unique {α : Type} (p : α → Bool) (x : α) :
    ∀ l : List α, x ∈ l → p x = true → (∀ y ∈ l, p y = true → y = x) →
      l.find? p = some x := by
  intro l
  induction l with
  | nil => intro h; simp at h
  | cons a rest ih =>
    intro hmem hpx huniq
    by_cases hpa : p a = true
    · rw [List.find?_cons_of_pos _ hpa]
      rw [huniq a (List.mem_cons_self a rest) hpa]
    · rw [List.find?_cons_of_neg _ (by simpa using hpa)]
      rcases List.mem_cons.mp hmem with rfl | hmem2
      · exact absurd hpx hpa
      · exact ih hmem2 hpx (fun y hy hpy => huniq y (List.mem_cons_of_mem a hy) hpy)

/-- If a row matches no open id, `applyOpen` is the identity on it. -/
theorem applyOpen_eq_self_of_find?_none (ot : List TradeRow)
    (settled : List (String × Int)) (fills active : List String) (s : TradeRow)
    (h : ot.find? (fun u => u.id == s.id) = none) :
    applyOpen ot settled fills active s = s := by
  unfold applyOpen
  rw [h]

/-- `applyOpen` on the empty open list is the identity. -/
theorem applyOpen_nil (settled : List (String × Int)) (fills active : List String) :
    applyOpen [] settled fills active = fun s => s :=
  funext fun _ => rfl

/-- `applyDecision` never changes the id of a row. -/
theorem applyDecision_id_eq (d : Option (String × Int)) (s : TradeRow) :
    (applyDecision d s).id = s.id := by
  cases d with
  | none => rfl
  | some stp => rcases stp with ⟨st, pnl⟩; rfl

/-- A decision that changes a row is a `some`, and writes its status. -/
theorem applyDecision_status (d : Option (String × Int)) (x : TradeRow)
    (h : applyDecision d x ≠ x) :
    ∃ st pnl, d = some (st, pnl) ∧ (applyDecision d x).status = st := by
  cases d with
  | none => exact absurd rfl h
  | some stp =>
    rcases stp with ⟨st, pnl⟩
    exact ⟨st, pnl, rfl, rfl⟩

/-- `applyOpen` never changes the id of a row. -/
theorem applyOpen_id_eq (ot : List TradeRow) (settled : List (String × Int))
    (fills active : List String) (s : TradeRow) :
    (applyOpen ot settled fills active s).id = s.id := by
  unfold applyOpen
  cases ot.find? (fun u => u.id == s.id) with
  | none => rfl
  | some u => exact applyDecision_id_eq _ s

/-- The statuses `reconcile_trades` can write are exactly
settled/lost/expired. -/
theorem reconcileOne_status (t : TradeRow) (settled : List (String × Int))
    (fills active : List String) (st : String) (pnl : Int)
    (h : reconcileOne t settled fills active = some (st, pnl)) :
    st = "settled" ∨ st = "lost" ∨ st = "expired" := by
  unfold reconcileOne at h
  cases hdl : dictLookup settled t.market_ticker with
  | some revenue =>
    simp only [hdl] at h
    by_cases hrev : revenue > 0
    · rw [if_pos hrev] at h
      injection h with h1
      injection h1 with h2 h3
      exact Or.inl h2.symm
    · rw [if_neg hrev] at h
      injection h with h1
      injection h1 with h2 h3
      exact Or.inr (Or.inl h2.symm)
  | none =>
    simp only [hdl] at h
    split at h
    · injection h with h1
      injection h1 with h2 h3
      exact Or.inr (Or.inr h2.symm)
    · exact absurd h (by simp)

/-- The decisions of `reconcile_trades` are taken from the open list
captured before the first update, and each `update_trade_status` touches
only the row with the decided id; with distinct ids the loop therefore
acts on the store row-wise, as `applyOpen`. -/
theorem reconcileLoop_fst (settled : List (String × Int)) (fills : List String)
    (active : List String) :
    ∀ ts : List TradeRow, (ts.map (fun t => t.id)).Nodup →
      ∀ store : List TradeRow,
        (reconcileLoop settled fills active store ts).1 =
          store.map (applyOpen ts settled fills active) := by
  intro ts
  induction ts with
  | nil =>
    intro _ store
    simp only [reconcileLoop]
    rw [applyOpen_nil, List.map_id']
  | cons t rest ih =>
    intro hnd store
    rw [List.map_cons, List.nodup_cons] at hnd
    have hrestid : ∀ u ∈ rest, u.id ≠ t.id := by
      intro u hu he
      exact hnd.1 (he ▸ List.mem_map_of_mem (fun t => t.id) hu)
    have hfind_rest_none : ∀ s : TradeRow, s.id = t.id →
        rest.find? (fun u => u.id == s.id) = none := by
      intro s hid
      rw [List.find?_eq_none]
      intro u hu
      simp only [beq_iff_eq]
      exact fun he => hrestid u hu (he.trans hid)
    have hfind_cons_pos : ∀ s : TradeRow, s.id = t.id →
        (t :: rest).find? (fun u => u.id == s.id) = some t := by
      intro s hid
      rw [List.find?_cons_of_pos _ (by simp [hid])]
    have hfind_cons_neg : ∀ s : TradeRow, s.id ≠ t.id →
        (t :: rest).find? (fun u => u.id == s.id) =
          rest.find? (fun u => u.id == s.id) := by
      intro s hid
      rw [List.find?_cons_of_neg _ (by simp; exact fun h => hid h.symm)]
    cases hro : reconcileOne t settled fills active with
    | some stp =>
      rcases stp with ⟨st, pnl⟩
      have hloop : reconcileLoop settled fills active store (t :: rest) =
          ((reconcileLoop settled fills active
              (updateTradeStatus store t.id st pnl) rest).1,
            (reconcileLoop settled fills active
              (updateTradeStatus store t.id st pnl) rest).2 + 1) := by
        rw [reconcileLoop, hro]
      rw [hloop]
      rw [ih hnd.2 (updateTradeStatus store t.id st pnl)]
      unfold updateTradeStatus
      rw [List.map_map]
      apply List.map_congr_left
      intro s _
      simp only [Function.comp]
      by_cases hid : s.id = t.id
      · rw [if_pos hid]
        have hlhs : applyOpen rest settled fills active
            { s with status := st, pnl := pnl } =
            { s with status := st, pnl := pnl } :=
          applyOpen_eq_self_of_find?_none _ _ _ _ _ (hfind_rest_none _ hid)
        have hrhs : applyOpen (t :: rest) settled fills active s =
            { s with status := st, pnl := pnl } := by
          unfold applyOpen
          rw [hfind_cons_pos s hid]
          show applyDecision (reconcileOne t settled fills active) s = _
          rw [hro]
          rfl
        rw [hlhs, hrhs]
      · rw [if_neg hid]
        unfold applyOpen
        rw [hfind_cons_neg s hid]
    | none =>
      have hloop : reconcileLoop settled fills active store (t :: rest) =
          reconcileLoop settled fills active store rest := by
        rw [reconcileLoop, hro]
      rw [hloop]
      rw [ih hnd.2 store]
      apply List.map_congr_left
      intro s _
      by_cases hid : s.id = t.id
      · have hlhs : applyOpen rest settled fills active s = s :=
          applyOpen_eq_self_of_find?_none _ _ _ _ _ (hfind_rest_none _ hid)
        have hrhs : applyOpen (t :: rest) settled fills active s = s := by
          unfold applyOpen
          rw [hfind_cons_pos s hid]
          show applyDecision (reconcileOne t settled fills active) s = _
          rw [hro]
          rfl
        rw [hlhs, hrhs]
      · unfold applyOpen
        rw [hfind_cons_neg s hid]

/-- A failed positions fetch (or an empty open set) leaves the store
untouched and reports zero updates. -/
theorem reconcileTrades_error_fst (store : List TradeRow)
    (settRes : Except Unit (List Settlement))
    (fillsRes : Except Unit (List String)) :
    reconcileTrades store (Except.error ()) settRes fillsRes = (store, 0) := by
  simp only [reconcileTrades]
  split
  · rfl
  · rfl

/-- The open-trade ids inherit distinctness from the store ids. -/
theorem getOpenTrades_nodup (store : List TradeRow)
    (hnd : (store.map (fun t => t.id)).Nodup) :
    ((getOpenTrades store).map (fun t => t.id)).Nodup :=
  List.Nodup.sublist ((List.filter_sublist store).map (fun t => t.id)) hnd

/-- Row-wise characterization of a reconciliation cycle whose positions
fetch succeeded. -/
theorem reconcileTrades_ok_fst (store : List TradeRow)
    (positions : List PositionEntry) (settRes : Except Unit (List Settlement))
    (fillsRes : Except Unit (List String))
    (hnd : (store.map (fun t => t.id)).Nodup) :
    (reconcileTrades store (Except.ok positions) settRes fillsRes).1 =
      store.map (applyOpen (getOpenTrades store)
        (match settRes with | .ok ss => settledTickers ss | .error _ => [])
        (match fillsRes with | .ok fs => filledOrderIds fs | .error _ => [])
        (activeTickers positions)) := by
  unfold reconcileTrades
  by_cases hopen : getOpenTrades store = []
  · rw [if_pos hopen, hopen, applyOpen_nil, List.map_id']
  · rw [if_neg hopen]
    exact reconcileLoop_fst _ _ _ (getOpenTrades store)
      (getOpenTrades_nodup store hnd) store

/-- An element of the store is the unique hit of the open-list search for
its own id. -/
theorem find?_openTrades (store : List TradeRow) (t : TradeRow)
    (hnd : (store.map (fun t => t.id)).Nodup) (ht : t ∈ store)
    (hopen : t.status = "open") :
    (getOpenTrades store).find? (fun u => u.id == t.id) = some t := by
  apply find?_eq_some_of_unique
  · unfold getOpenTrades
    rw [List.mem_filter]
    exact ⟨ht, by simp [hopen]⟩
  · simp
  · intro y hy hpy
    have hys : y ∈ store := List.mem_of_mem_filter hy
    have : y.id = t.id := by simpa using hpy
    exact List.inj_on_of_nodup_map hnd hys ht this

/-- On a terminal row of a store with distinct ids, `applyOpen` over that
store's open list is the identity. -/
theorem applyOpen_terminal (store : List TradeRow)
    (settled : List (String × Int)) (fills active : List String) (s : TradeRow)
    (hnd : (store.map (fun t => t.id)).Nodup) (hs : s ∈ store)
    (hterm : s.status ≠ "open") :
    applyOpen (getOpenTrades store) settled fills active s = s := by
  apply applyOpen_eq_self_of_find?_none
  rw [List.find?_eq_none]
  intro u hu
  simp only [beq_iff_eq]
  intro he
  have hus : u ∈ store := List.mem_of_mem_filter hu
  have huo : u.status = "open" := by
    have := (List.mem_filter.mp hu).2
    simpa using this
  have : u = s := List.inj_on_of_nodup_map hnd hus hs he
  exact hterm (this ▸ huo)

/-- C2: for every open trade whose ticker is present in the settlement
set, `reconcile_trades` performs a terminal transition: status `settled`
with `pnl = revenue - price*quantity` when the settlement revenue is
positive, status `lost` with `pnl = -(price*quantity)` when the revenue
is ≤ 0.  Stated on a store with distinct primary-key ids (the schema
guarantees this). -/
theorem reconcile_settled_transition (store : List TradeRow)
    (positions : List PositionEntry) (settlements : List Settlement)
    (fillsRes : Except Unit (List String)) (t : TradeRow) (rev : Int)
    (hnd : (store.map (fun t => t.id)).Nodup) (ht : t ∈ store)
    (hopen : t.status = "open")
    (hrev : dictLookup (settledTickers settlements) t.market_ticker = some rev) :
    { t with status := if rev > 0 then "settled" else "lost",
             pnl := if rev > 0 then rev - t.price * t.quantity
                    else -(t.price * t.quantity) }
      ∈ (reconcileTrades store (Except.ok positions)
          (Except.ok settlements) fillsRes).1 := by
  rw [reconcileTrades_ok_fst store positions (Except.ok settlements) fillsRes hnd]
  have happ : applyOpen (getOpenTrades store) (settledTickers settlements)
      (match fillsRes with | .ok fs => filledOrderIds fs | .error _ => [])
      (activeTickers positions) t =
      { t with status := if rev > 0 then "settled" else "lost",
               pnl := if rev > 0 then rev - t.price * t.quantity
                      else -(t.price * t.quantity) } := by
    by_cases h : rev > 0
    · have hro : reconcileOne t (settledTickers settlements)
          (match fillsRes with | .ok fs => filledOrderIds fs | .error _ => [])
          (activeTickers positions) =
          some ("settled", rev - t.price * t.quantity) := by
        unfold reconcileOne
        simp only [hrev, if_pos h]
      unfold applyOpen
      rw [find?_openTrades store t hnd ht hopen]
      show applyDecision (reconcileOne t _ _ _) t = _
      rw [hro]
      simp only [if_pos h]
      rfl
    · have hro : reconcileOne t (settledTickers settlements)
          (match fillsRes with | .ok fs => filledOrderIds fs | .error _ => [])
          (activeTickers positions) =
          some ("lost", -(t.price * t.quantity)) := by
        unfold reconcileOne
        simp only [hrev, if_neg h]
      unfold applyOpen
      rw [find?_openTrades store t hnd ht hopen]
      show applyDecision (reconcileOne t _ _ _) t = _
      rw [hro]
      simp only [if_neg h]
      rfl
  rw [← happ]
  exact List.mem_map_of_mem _ ht

/-- Witness for C2: a single open trade on ticker `"T"` (price 10,
quantity 2) with a settlement of revenue 50 becomes settled with
pnl = 50 - 20 = 30. -/
theorem reconcile_settled_transition_witness :
    (([({ id := 1, market_ticker := "T", event_ticker := "E", side := "no",
          price := 10, quantity := 2, order_id := "o1", client_order_id := "c1",
          timestamp := "ts", status := "open", pnl := 0 } : TradeRow)].map
        (fun t => t.id)).Nodup) ∧
    (({ id := 1, market_ticker := "T", event_ticker := "E", side := "no",
        price := 10, quantity := 2, order_id := "o1", client_order_id := "c1",
        timestamp := "ts", status := "open", pnl := 0 } : TradeRow) ∈
      [({ id := 1, market_ticker := "T", event_ticker := "E", side := "no",
          price := 10, quantity := 2, order_id := "o1", client_order_id := "c1",
          timestamp := "ts", status := "open", pnl := 0 } : TradeRow)]) ∧
    (({ id := 1, market_ticker := "T", event_ticker := "E", side := "no",
        price := 10, quantity := 2, order_id := "o1", client_order_id := "c1",
        timestamp := "ts", status := "open", pnl := 0 } : TradeRow).status =
      "open") ∧
    (dictLookup (settledTickers [({ market_ticker := "T", revenue := 50 } :
        Settlement)]) "T" = some 50) ∧
    ({ ({ id := 1, market_ticker := "T", event_ticker := "E", side := "no",
          price := 10, quantity := 2, order_id := "o1", client_order_id := "c1",
          timestamp := "ts", status := "open", pnl := 0 } : TradeRow) with
        status := if (50:Int) > 0 then "settled" else "lost",
        pnl := if (50:Int) > 0 then 50 - (10:Int) * 2 else -((10:Int) * 2) }
      ∈ (reconcileTrades
          [{ id := 1, market_ticker := "T", event_ticker := "E", side := "no",
             price := 10, quantity := 2, order_id := "o1",
             client_order_id := "c1", timestamp := "ts", status := "open",
             pnl := 0 }]
          (Except.ok []) (Except.ok [{ market_ticker := "T", revenue := 50 }])
          (Except.ok [])).1) :=
  ⟨by decide, by decide, rfl, by decide,
    reconcile_settled_transition _ _ _ _ _ _ (by decide) (by decide) rfl
      (by decide)⟩

/-- C7: if the broker positions fetch fails, `reconcile_trades` returns
0 updates and performs no trade update at all — the store is exactly as
before the call — even when the settlements and fills fetches would have
succeeded (the positions fetch comes first and aborts the cycle). -/
theorem reconcile_positions_failure_atomic (store : List TradeRow)
    (settRes : Except Unit (List Settlement))
    (fillsRes : Except Unit (List String)) :
    reconcileTrades store (Except.error ()) settRes fillsRes = (store, 0) :=
  reconcileTrades_error_fst store settRes fillsRes

/-- Row-wise facts about the mapped form of one reconciliation cycle:
ids are preserved, non-open rows are untouched, and any changed row was
open and now carries one of the terminal statuses. -/
theorem applyOpen_map_rowwise (store : List TradeRow)
    (settled : List (String × Int)) (fills active : List String)
    (hnd : (store.map (fun t => t.id)).Nodup) :
    ((store.map (applyOpen (getOpenTrades store) settled fills active)).map
        (fun t => t.id) = store.map (fun t => t.id)) ∧
    (∀ i (hi : i < store.length)
        (hi2 : i < (store.map
          (applyOpen (getOpenTrades store) settled fills active)).length),
      ((store.get ⟨i, hi⟩).status ≠ "open" →
        (store.map (applyOpen (getOpenTrades store) settled fills
          active)).get ⟨i, hi2⟩ = store.get ⟨i, hi⟩) ∧
      ((store.map (applyOpen (getOpenTrades store) settled fills
          active)).get ⟨i, hi2⟩ ≠ store.get ⟨i, hi⟩ →
        (store.get ⟨i, hi⟩).status = "open" ∧
        (((store.map (applyOpen (getOpenTrades store) settled fills
            active)).get ⟨i, hi2⟩).status = "settled" ∨
          ((store.map (applyOpen (getOpenTrades store) settled fills
            active)).get ⟨i, hi2⟩).status = "lost" ∨
          ((store.map (applyOpen (getOpenTrades store) settled fills
            active)).get ⟨i, hi2⟩).status = "expired"))) := by
  constructor
  · rw [List.map_map]
    apply List.map_congr_left
    intro s _
    exact applyOpen_id_eq _ _ _ _ s
  · intro i hi hi2
    have hget : (store.map (applyOpen (getOpenTrades store) settled fills
        active)).get ⟨i, hi2⟩ =
        applyOpen (getOpenTrades store) settled fills active
          (store.get ⟨i, hi⟩) := by
      simp [List.get_eq_getElem, List.getElem_map]
    rw [hget]
    have hmem : store.get ⟨i, hi⟩ ∈ store := store.get_mem i hi
    constructor
    · exact fun hterm => applyOpen_terminal store _ _ _ _ hnd hmem hterm
    · intro hchanged
      by_cases hopen : (store.get ⟨i, hi⟩).status = "open"
      · refine ⟨hopen, ?_⟩
        unfold applyOpen at hchanged ⊢
        cases hfind : (getOpenTrades store).find?
            (fun u => u.id == (store.get ⟨i, hi⟩).id) with
        | none =>
          rw [hfind] at hchanged
          exact absurd rfl hchanged
        | some u =>
          rw [hfind] at hchanged
          have hchanged2 : applyDecision (reconcileOne u settled fills active)
              (store.get ⟨i, hi⟩) ≠ store.get ⟨i, hi⟩ := hchanged
          obtain ⟨st, pnl, hro, hst⟩ := applyDecision_status _ _ hchanged2
          show (applyDecision (reconcileOne u settled fills active)
              (store.get ⟨i, hi⟩)).status = "settled" ∨
            (applyDecision (reconcileOne u settled fills active)
              (store.get ⟨i, hi⟩)).status = "lost" ∨
            (applyDecision (reconcileOne u settled fills active)
              (store.get ⟨i, hi⟩)).status = "expired"
          rw [hst]
          exact reconcileOne_status u _ _ _ st pnl hro
      · exact absurd (applyOpen_terminal store _ _ _ _ hnd hmem hopen)
          hchanged

/-- Row-wise facts about one reconciliation cycle on a store with
distinct ids (both the fail-closed branch and the update branch). -/
theorem reconcileTrades_rowwise (store : List TradeRow)
    (positionsRes : Except Unit (List PositionEntry))
    (settRes : Except Unit (List Settlement))
    (fillsRes : Except Unit (List String))
    (hnd : (store.map (fun t => t.id)).Nodup) :
    ((reconcileTrades store positionsRes settRes fillsRes).1.map
        (fun t => t.id) = store.map (fun t => t.id)) ∧
    (∀ i (hi : i < store.length)
        (hi2 : i < (reconcileTrades store positionsRes settRes fillsRes).1.length),
      ((store.get ⟨i, hi⟩).status ≠ "open" →
        (reconcileTrades store positionsRes settRes fillsRes).1.get ⟨i, hi2⟩ =
          store.get ⟨i, hi⟩) ∧
      ((reconcileTrades store positionsRes settRes fillsRes).1.get ⟨i, hi2⟩ ≠
          store.get ⟨i, hi⟩ →
        (store.get ⟨i, hi⟩).status = "open" ∧
        (((reconcileTrades store positionsRes settRes fillsRes).1.get
            ⟨i, hi2⟩).status = "settled" ∨
          ((reconcileTrades store positionsRes settRes fillsRes).1.get
            ⟨i, hi2⟩).status = "lost" ∨
          ((reconcileTrades store positionsRes settRes fillsRes).1.get
            ⟨i, hi2⟩).status = "expired"))) := by
  cases positionsRes with
  | error e =>
    rw [reconcileTrades_error_fst store settRes fillsRes]
    refine ⟨rfl, ?_⟩
    intro i hi hi2
    exact ⟨fun _ => rfl, fun h => absurd rfl h⟩
  | ok positions =>
    have h := reconcileTrades_ok_fst store positions settRes fillsRes hnd
    rw [h]
    exact applyOpen_map_rowwise store _ _ _ hnd

/-- C8: the trade-status invariant.  A trade is created with status
`open` (conjunct 1).  A reconciliation cycle on a store with distinct
ids preserves every row's id (conjunct 2), leaves every non-`open` row
exactly as it was (conjunct 3: the update loop reads only the open set,
so terminal rows are never re-processed — also on any re-run, since
conjunct 2 keeps the id distinctness available for the next cycle), and
any row it changes was `open` and is moved to one of the terminal
statuses settled/lost/expired (conjunct 4).  Hence a trade transitions
at most once, never from a terminal state back to `open` and never
between terminal states. -/
theorem trade_status_invariant (store : List TradeRow)
    (positionsRes : Except Unit (List PositionEntry))
    (settRes : Except Unit (List Settlement))
    (fillsRes : Except Unit (List String))
    (nid : Nat) (nmt net nsd : String) (npr nq : Int) (noid ncoid nts : String)
    (hnd : (store.map (fun t => t.id)).Nodup) :
    (insertTrade nid nmt net nsd npr nq noid ncoid nts).status = "open" ∧
    ((reconcileTrades store positionsRes settRes fillsRes).1.map
        (fun t => t.id) = store.map (fun t => t.id)) ∧
    (∀ i (hi : i < store.length)
        (hi2 : i < (reconcileTrades store positionsRes settRes fillsRes).1.length),
      (store.get ⟨i, hi⟩).status ≠ "open" →
        (reconcileTrades store positionsRes settRes fillsRes).1.get ⟨i, hi2⟩ =
          store.get ⟨i, hi⟩) ∧
    (∀ i (hi : i < store.length)
        (hi2 : i < (reconcileTrades store positionsRes settRes fillsRes).1.length),
      (reconcileTrades store positionsRes settRes fillsRes).1.get ⟨i, hi2⟩ ≠
          store.get ⟨i, hi⟩ →
        (store.get ⟨i, hi⟩).status = "open" ∧
        (((reconcileTrades store positionsRes settRes fillsRes).1.get
            ⟨i, hi2⟩).status = "settled" ∨
          ((reconcileTrades store positionsRes settRes fillsRes).1.get
            ⟨i, hi2⟩).status = "lost" ∨
          ((reconcileTrades store positionsRes settRes fillsRes).1.get
            ⟨i, hi2⟩).status = "expired")) := by
  obtain ⟨hids, hrows⟩ := reconcileTrades_rowwise store positionsRes settRes
    fillsRes hnd
  exact ⟨rfl, hids,
    fun i hi hi2 => (hrows i hi hi2).1,
    fun i hi hi2 => (hrows i hi hi2).2⟩

/-- Witness for C8: a two-row store (one open trade, one already-settled
trade) reconciled against empty broker data, plus a fresh insert. -/
theorem trade_status_invariant_witness :
    (([rowOpenT, rowSettledU].map (fun t => t.id)).Nodup) ∧
    ((insertTrade 3 "V" "E" "no" 95 1 "o3" "c3" "ts").status = "open" ∧
      ((reconcileTrades [rowOpenT, rowSettledU]
          (Except.ok []) (Except.ok []) (Except.ok [])).1.map
          (fun t => t.id) = [rowOpenT, rowSettledU].map (fun t => t.id)) ∧
      (∀ i (hi : i < ([rowOpenT, rowSettledU] : List TradeRow).length)
          (hi2 : i < (reconcileTrades [rowOpenT, rowSettledU]
            (Except.ok []) (Except.ok []) (Except.ok [])).1.length),
        (([rowOpenT, rowSettledU] : List TradeRow).get ⟨i, hi⟩).status ≠
            "open" →
          (reconcileTrades [rowOpenT, rowSettledU]
            (Except.ok []) (Except.ok []) (Except.ok [])).1.get ⟨i, hi2⟩ =
            ([rowOpenT, rowSettledU] : List TradeRow).get ⟨i, hi⟩) ∧
      (∀ i (hi : i < ([rowOpenT, rowSettledU] : List TradeRow).length)
          (hi2 : i < (reconcileTrades [rowOpenT, rowSettledU]
            (Except.ok []) (Except.ok []) (Except.ok [])).1.length),
        (reconcileTrades [rowOpenT, rowSettledU]
            (Except.ok []) (Except.ok []) (Except.ok [])).1.get ⟨i, hi2⟩ ≠
            ([rowOpenT, rowSettledU] : List TradeRow).get ⟨i, hi⟩ →
          ((([rowOpenT, rowSettledU] : List TradeRow).get ⟨i, hi⟩).status =
              "open") ∧
            (((reconcileTrades [rowOpenT, rowSettledU]
                (Except.ok []) (Except.ok []) (Except.ok [])).1.get
                ⟨i, hi2⟩).status = "settled" ∨
              ((reconcileTrades [rowOpenT, rowSettledU]
                (Except.ok []) (Except.ok []) (Except.ok [])).1.get
                ⟨i, hi2⟩).status = "lost" ∨
              ((reconcileTrades [rowOpenT, rowSettledU]
                (Except.ok []) (Except.ok []) (Except.ok [])).1.get
                ⟨i, hi2⟩).status = "expired"))) :=
  ⟨by decide,
    trade_status_invariant [rowOpenT, rowSettledU]
      (Except.ok []) (Except.ok []) (Except.ok [])
      3 "V" "E" "no" 95 1 "o3" "c3" "ts" (by decide)⟩

/-- C3: whenever today's realized pnl is at or below
`-(balance * MAX_DAILY_LOSS_PCT/100)`, the daily loss breaker fires and
`execute_signals` places no orders and returns 0, regardless of the
batch.  (The code's truncated threshold `-int(balance*15/100)` is at
least the exact one, so the exact-threshold condition implies the gate.) -/
theorem execute_signals_daily_loss_gate (signals : List TradeSignal)
    (daily_pnl : Int) (paused : String) (balance : Int) (orderOk : Nat → Bool)
    (h : (daily_pnl : ℚ) ≤ -((balance : ℚ) * (MAX_DAILY_LOSS_PCT : ℚ) / 100)) :
    executeSignals signals daily_pnl paused balance orderOk = 0 := by
  have hfd : ((Int.fdiv (balance * MAX_DAILY_LOSS_PCT) 100 : Int) : ℚ) ≤
      (balance : ℚ) * (MAX_DAILY_LOSS_PCT : ℚ) / 100 := by
    calc ((Int.fdiv (balance * MAX_DAILY_LOSS_PCT) 100 : Int) : ℚ)
        ≤ ((balance * MAX_DAILY_LOSS_PCT : Int) : ℚ) / 100 := fdiv100_cast_le _
      _ = (balance : ℚ) * (MAX_DAILY_LOSS_PCT : ℚ) / 100 := by push_cast; ring
  have hint : daily_pnl ≤ -(Int.fdiv (balance * MAX_DAILY_LOSS_PCT) 100) := by
    have hq : (daily_pnl : ℚ) ≤
        -((Int.fdiv (balance * MAX_DAILY_LOSS_PCT) 100 : Int) : ℚ) :=
      le_trans h (by linarith)
    exact_mod_cast hq
  simp only [executeSignals]
  rw [if_pos hint]

/-- Witness for C3: balance 100000, daily pnl exactly at the −15%
threshold (−15000), a non-empty signal batch, all submissions would
succeed — yet zero orders are placed. -/
theorem execute_signals_daily_loss_gate_witness :
    ((-15000 : Int) : ℚ) ≤ -((100000 : ℚ) * (MAX_DAILY_LOSS_PCT : ℚ) / 100) ∧
    executeSignals [signalM1] (-15000) "false" 100000 (fun _ => true) = 0 :=
  ⟨by norm_num [MAX_DAILY_LOSS_PCT],
    execute_signals_daily_loss_gate _ _ _ _ _
      (by norm_num [MAX_DAILY_LOSS_PCT])⟩

/-- `round(·, 4)` is the identity on the scanner's edges, which are
integer multiples of 1/100. -/
theorem round4_edge (k : Int) :
    round4 ((k : ℚ) / 100 - 1/2) = (k : ℚ) / 100 - 1/2 := by
  unfold round4
  have h : ((k : ℚ) / 100 - 1/2) * 10000 = ((k * 100 - 5000 : Int) : ℚ) := by
    push_cast
    ring
  rw [h, round_intCast]
  push_cast
  ring

/-- Every opportunity a market contributes carries that market's
ticker. -/
theorem processMarket_ticker (m : Market) (cutoff : Int) :
    ∀ o ∈ processMarket m cutoff, o.ticker = m.ticker := by
  intro o ho
  unfold processMarket at ho
  by_cases hexp : passesExpiry m cutoff
  · rw [if_pos hexp] at ho
    simp only [] at ho
    rw [List.mem_append] at ho
    rcases ho with ho | ho
    · split at ho
      · split at ho
        · rw [List.mem_singleton] at ho
          subst ho
          rfl
        · simp at ho
      · simp at ho
    · split at ho
      · split at ho
        · rw [List.mem_singleton] at ho
          subst ho
          rfl
        · simp at ho
      · simp at ho
  · rw [if_neg hexp] at ho
    simp at ho

/-- In a scan batch where `m` occurs once and no other market shares its
ticker, filtering the concatenated per-market output by `m`'s ticker
recovers exactly `m`'s contribution. -/
theorem flatten_processMarket_filter (cutoff : Int) (m : Market) :
    ∀ ms : List Market, ms.count m = 1 →
      (∀ m2 ∈ ms, m2 ≠ m → m2.ticker ≠ m.ticker) →
      ((ms.map (fun mm => processMarket mm cutoff)).flatten).filter
          (fun o => o.ticker == m.ticker) = processMarket m cutoff := by
  intro ms
  induction ms with
  | nil => intro hc _; simp at hc
  | cons a rest ih =>
    intro hc hnd
    rw [List.map_cons, List.flatten_cons, List.filter_append]
    by_cases ha : a = m
    · subst ha
      have hcr : rest.count a = 0 := by
        rw [List.count_cons_self] at hc
        omega
      have hnorest : ∀ o ∈ (rest.map
          (fun mm => processMarket mm cutoff)).flatten,
          ¬((o.ticker == a.ticker) = true) := by
        intro o ho
        rw [List.mem_flatten] at ho
        obtain ⟨l, hl, hol⟩ := ho
        rw [List.mem_map] at hl
        obtain ⟨m2, hm2, rfl⟩ := hl
        have hne : m2 ≠ a := by
          intro he
          subst he
          exact absurd hm2 (List.count_eq_zero.mp hcr)
        have hnt := hnd m2 (List.mem_cons_of_mem a hm2) hne
        have hot := processMarket_ticker m2 cutoff o hol
        simpa [hot] using hnt
      rw [List.filter_eq_self.mpr (fun o ho => by
        simp [processMarket_ticker a cutoff o ho])]
      rw [List.filter_eq_nil_iff.mpr hnorest, List.append_nil]
    · have hta : a.ticker ≠ m.ticker := hnd a (List.mem_cons_self a rest) ha
      have hfa : (processMarket a cutoff).filter
          (fun o => o.ticker == m.ticker) = [] := by
        rw [List.filter_eq_nil_iff]
        intro o ho
        have hot := processMarket_ticker a cutoff o ho
        simpa [hot] using hta
      have hcr : rest.count m = 1 := by
        rw [List.count_cons_of_ne (fun he => ha he.symm)] at hc
        exact hc
      rw [hfa, List.nil_append]
      exact ih hcr (fun m2 hm2 => hnd m2 (List.mem_cons_of_mem a hm2))

/-- C9: a market that passes the expiry filter with
`0 < yes_bid < YES_LOW_THRESHOLD` and `(100 - yes_bid)/100 ≥ 0.90`
contributes exactly one opportunity, with side `no`,
`entry_price = 100 - yes_bid` and `edge = (100 - yes_bid)/100 - 0.5`;
the favorite-back branch cannot fire for the same market since
`yes_bid < 10 < 85` (conjunct 1).  Consequently, in any full
`scan_markets` batch containing the market once (no other market sharing
its ticker), the scan output restricted to that market's ticker is
exactly that single opportunity (conjunct 2: sorting permutes but never
adds or drops entries). -/
theorem scanner_longshot_exact (m : Market) (cutoff : Int) (p : Int)
    (hexp : passesExpiry m cutoff = true) (hyb : m.yes_bid = some p)
    (h0 : 0 < p) (hlt : p < YES_LOW_THRESHOLD)
    (himp : (100 - (p : ℚ)) / 100 ≥ 9/10) :
    processMarket m cutoff =
      [{ ticker := m.ticker, event_ticker := m.event_ticker, title := m.title,
         yes_price := p, no_price := m.no_bid.getD 0, side := "no",
         entry_price := 100 - p, edge := (100 - (p : ℚ)) / 100 - 1/2,
         close_time := m.close_time }] ∧
    (∀ ms : List Market, ms.count m = 1 →
      (∀ m2 ∈ ms, m2 ≠ m → m2.ticker ≠ m.ticker) →
      (scanMarkets ms cutoff).filter (fun o => o.ticker == m.ticker) =
        [{ ticker := m.ticker, event_ticker := m.event_ticker,
           title := m.title, yes_price := p, no_price := m.no_bid.getD 0,
           side := "no", entry_price := 100 - p,
           edge := (100 - (p : ℚ)) / 100 - 1/2,
           close_time := m.close_time }]) := by
  have hnofav : ¬(p > YES_HIGH_THRESHOLD) := by
    rw [YES_HIGH_THRESHOLD]
    rw [YES_LOW_THRESHOLD] at hlt
    omega
  have hedge : round4 ((100 - (p : ℚ)) / 100 - 1/2) =
      (100 - (p : ℚ)) / 100 - 1/2 := by
    have hc : (100 - (p : ℚ)) / 100 - 1/2 =
        (((100 - p : Int) : ℚ)) / 100 - 1/2 := by push_cast; ring
    rw [hc, round4_edge]
  have hmain : processMarket m cutoff =
      [{ ticker := m.ticker, event_ticker := m.event_ticker, title := m.title,
         yes_price := p, no_price := m.no_bid.getD 0, side := "no",
         entry_price := 100 - p, edge := (100 - (p : ℚ)) / 100 - 1/2,
         close_time := m.close_time }] := by
    unfold processMarket
    rw [hexp]
    simp only [if_true, hyb, Option.getD_some]
    rw [if_pos ⟨h0, hlt⟩, if_pos himp, if_neg hnofav]
    rw [hedge]
    simp
  refine ⟨hmain, ?_⟩
  intro ms hc hnd
  unfold scanMarkets
  have hperm := (List.mergeSort_perm
    ((ms.map (fun mm => processMarket mm cutoff)).flatten)
    (fun a b => decide (b.edge ≤ a.edge))).filter
    (fun o => o.ticker == m.ticker)
  rw [flatten_processMarket_filter cutoff m ms hc hnd, hmain] at hperm
  exact List.perm_singleton.mp hperm

/-- Witness for C9: a market with `yes_bid = 5` inside the expiry
window yields the single opportunity NO @ 95 with edge 0.45, both as
its per-market contribution and in a whole scan containing it. -/
theorem scanner_longshot_exact_witness :
    passesExpiry marketLongshot5 200 = true ∧
    marketLongshot5.yes_bid = some 5 ∧
    (0:Int) < 5 ∧ (5:Int) < YES_LOW_THRESHOLD ∧
    (100 - ((5:Int) : ℚ)) / 100 ≥ 9/10 ∧
    processMarket marketLongshot5 200 =
      [{ ticker := marketLongshot5.ticker,
         event_ticker := marketLongshot5.event_ticker,
         title := marketLongshot5.title, yes_price := 5,
         no_price := marketLongshot5.no_bid.getD 0, side := "no",
         entry_price := 100 - 5, edge := (100 - ((5:Int) : ℚ)) / 100 - 1/2,
         close_time := marketLongshot5.close_time }] ∧
    (scanMarkets [marketLongshot5] 200).filter
        (fun o => o.ticker == marketLongshot5.ticker) =
      [{ ticker := marketLongshot5.ticker,
         event_ticker := marketLongshot5.event_ticker,
         title := marketLongshot5.title, yes_price := 5,
         no_price := marketLongshot5.no_bid.getD 0, side := "no",
         entry_price := 100 - 5, edge := (100 - ((5:Int) : ℚ)) / 100 - 1/2,
         close_time := marketLongshot5.close_time }] :=
  ⟨rfl, rfl, by norm_num, by norm_num [YES_LOW_THRESHOLD], by norm_num,
    (scanner_longshot_exact marketLongshot5 200 5 rfl rfl (by norm_num)
      (by norm_num [YES_LOW_THRESHOLD]) (by norm_num)).1,
    (scanner_longshot_exact marketLongshot5 200 5 rfl rfl (by norm_num)
      (by norm_num [YES_LOW_THRESHOLD]) (by norm_num)).2 [marketLongshot5]
      (by decide) (by decide)⟩

/-- C10: a market whose `yes_bid` is missing, null, or 0 yields no
opportunity at all: the coercion `m.get("yes_bid", 0) or 0` turns all
three into price 0, which fails both the longshot condition `0 < p` and
the favorite condition `p > 85`. -/
theorem scanner_missing_yes_bid (m : Market) (cutoff : Int)
    (h : m.yes_bid = none ∨ m.yes_bid = some 0) :
    processMarket m cutoff = [] ∧
    (∀ ms : List Market,
      scanMarkets (m :: ms) cutoff = scanMarkets ms cutoff) := by
  have hy : m.yes_bid.getD 0 = 0 := by
    rcases h with h | h <;> rw [h] <;> rfl
  have hmain : processMarket m cutoff = [] := by
    unfold processMarket
    by_cases hexp : passesExpiry m cutoff
    · rw [if_pos hexp]
      simp only [hy]
      have h1 : ¬(0 < (0:Int) ∧ (0:Int) < YES_LOW_THRESHOLD) := by simp
      have h2 : ¬((0:Int) > YES_HIGH_THRESHOLD) := by
        rw [YES_HIGH_THRESHOLD]
        omega
      rw [if_neg h1, if_neg h2]
      rfl
    · rw [if_neg hexp]
  refine ⟨hmain, ?_⟩
  intro ms
  unfold scanMarkets
  rw [List.map_cons, List.flatten_cons, hmain, List.nil_append]

/-- Witness for C10: the sample market with a missing `yes_bid`
contributes nothing, and adding it to a scan batch changes nothing. -/
theorem scanner_missing_yes_bid_witness :
    (marketNoYesBid.yes_bid = none ∨ marketNoYesBid.yes_bid = some 0) ∧
    processMarket marketNoYesBid 200 = [] ∧
    scanMarkets [marketNoYesBid] 200 = scanMarkets [] 200 :=
  ⟨Or.inl rfl,
    (scanner_missing_yes_bid marketNoYesBid 200 (Or.inl rfl)).1,
    (scanner_missing_yes_bid marketNoYesBid 200 (Or.inl rfl)).2 []⟩

/-- C6: if the first two attempts of a client call raise a network
timeout and the third returns a success status, `_request` returns the
successful body, having slept exactly twice with backoffs 2s then 4s,
and having signed three times (once up front and once afresh before each
retry), each signing drawing a fresh clock sample. -/
theorem request_timeout_retry (outcomes : Nat → AttemptOutcome)
    (tsSeq : Nat → Nat) (code : Nat) (body : String)
    (h0 : outcomes 0 = .timeout) (h1 : outcomes 1 = .timeout)
    (h2 : outcomes 2 = .response code body) (hcode : code < 400) :
    clientRequest outcomes tsSeq 3 =
      { result := .ok body, sleeps := [2, 4],
        signTimestamps := [tsSeq 0, tsSeq 1, tsSeq 2] } := by
  have e2 : requestGo outcomes tsSeq 2 1 (some .timeoutErr) =
      { result := .ok body, sleeps := [], signTimestamps := [] } := by
    rw [requestGo, h2]
    show (if code < 400 then
        ({ result := Except.ok body, sleeps := [],
           signTimestamps := [] } : RequestTrace)
      else _) = _
    rw [if_pos hcode]
  have e1 : requestGo outcomes tsSeq 1 2 (some .timeoutErr) =
      { result := .ok body, sleeps := [4], signTimestamps := [tsSeq 2] } := by
    rw [requestGo, h1]
    show (if (1:Nat) ≤ 1 then
        ({ result := (requestGo outcomes tsSeq (1+1) 1
             (some ReqError.timeoutErr)).result,
           sleeps := 2 * (1+1) :: (requestGo outcomes tsSeq (1+1) 1
             (some ReqError.timeoutErr)).sleeps,
           signTimestamps := tsSeq (1+1) :: (requestGo outcomes tsSeq (1+1) 1
             (some ReqError.timeoutErr)).signTimestamps } : RequestTrace)
      else _) = _
    rw [if_pos (le_refl 1)]
    rw [show (1:Nat) + 1 = 2 from rfl, e2]
  have e0 : requestGo outcomes tsSeq 0 3 none =
      { result := .ok body, sleeps := [2, 4],
        signTimestamps := [tsSeq 1, tsSeq 2] } := by
    rw [requestGo, h0]
    show (if (1:Nat) ≤ 2 then
        ({ result := (requestGo outcomes tsSeq (0+1) 2
             (some ReqError.timeoutErr)).result,
           sleeps := 2 * (0+1) :: (requestGo outcomes tsSeq (0+1) 2
             (some ReqError.timeoutErr)).sleeps,
           signTimestamps := tsSeq (0+1) :: (requestGo outcomes tsSeq (0+1) 2
             (some ReqError.timeoutErr)).signTimestamps } : RequestTrace)
      else _) = _
    rw [if_pos (by norm_num : (1:Nat) ≤ 2)]
    rw [show (0:Nat) + 1 = 1 from rfl, e1]
  unfold clientRequest
  rw [e0]

/-- Witness for C6: the sample oracle times out twice then succeeds;
the call returns the body after sleeping 2s and 4s, with three signing
timestamps drawn in order. -/
theorem request_timeout_retry_witness :
    sampleOutcomes 0 = .timeout ∧ sampleOutcomes 1 = .timeout ∧
    sampleOutcomes 2 = .response 200 "ok" ∧ 200 < 400 ∧
    clientRequest sampleOutcomes sampleTsSeq 3 =
      { result := .ok "ok", sleeps := [2, 4],
        signTimestamps := [sampleTsSeq 0, sampleTsSeq 1, sampleTsSeq 2] } :=
  ⟨rfl, rfl, rfl, by norm_num,
    request_timeout_retry sampleOutcomes sampleTsSeq 200 "ok" rfl rfl rfl
      (by norm_num)⟩

/-- Sanity check of the hash embedding: the FIPS 180-4 test vector
SHA-256("abc"). -/
theorem sha256_testvector_abc :
    sha256 (strBytes "abc") =
      [0xba, 0x78, 0x16, 0xbf, 0x8f, 0x01, 0xcf, 0xea,
       0x41, 0x41, 0x40, 0xde, 0x5d, 0xae, 0x22, 0x23,
       0xb0, 0x03, 0x61, 0xa3, 0x96, 0x17, 0x7a, 0x9c,
       0xb4, 0x10, 0xff, 0x61, 0xf2, 0x00, 0x15, 0xad] := by decide

set_option maxRecDepth 2000000 in
/-- C5 counterexample: request signing is **not** deterministic in
timestamp, method, path and key alone.  RSA-PSS with salt length =
digest length draws a fresh 32-byte salt from the OS RNG on every call;
with the millisecond timestamp, method, path and private key all fixed,
two runs that draw different salts (here: all-zero vs all-one, both of
the mandated length 32) produce different signature headers. -/
theorem sign_request_salt_dependence :
    (signRequest "AK" sampleKey 1700000000000 "GET" "/trade-api/v2/markets"
        (List.replicate 32 0)).signature ≠
      (signRequest "AK" sampleKey 1700000000000 "GET" "/trade-api/v2/markets"
        (List.replicate 32 1)).signature := by decide

/-- C5 (amended): signing is deterministic once the PSS salt is counted
among the inputs: the access-key and timestamp headers never depend on
the salt, and identical timestamp, method, path, key **and salt** yield
identical headers.  (As the counterexample shows, determinism fails when
the salt — freshly drawn per call — is omitted, so this is the most the
code satisfies.) -/
theorem sign_request_deterministic_given_salt (apiKey : String)
    (key : RSAPrivateKey) (timestampMs : Nat) (method path : String)
    (salt1 salt2 : List Nat) :
    (signRequest apiKey key timestampMs method path salt1).accessKey =
      (signRequest apiKey key timestampMs method path salt2).accessKey ∧
    (signRequest apiKey key timestampMs method path salt1).timestamp =
      (signRequest apiKey key timestampMs method path salt2).timestamp ∧
    (salt1 = salt2 →
      signRequest apiKey key timestampMs method path salt1 =
        signRequest apiKey key timestampMs method path salt2) :=
  ⟨rfl, rfl, fun h => by rw [h]⟩

/-- Witness for C5's amended claim at concrete inputs (equal salts). -/
theorem sign_request_deterministic_given_salt_witness :
    ([0, 1] : List Nat) = [0, 1] ∧
    ((signRequest "AK" sampleKey 1700000000000 "GET" "/p" [0, 1]).accessKey =
        (signRequest "AK" sampleKey 1700000000000 "GET" "/p" [0, 1]).accessKey ∧
      (signRequest "AK" sampleKey 1700000000000 "GET" "/p" [0, 1]).timestamp =
        (signRequest "AK" sampleKey 1700000000000 "GET" "/p" [0, 1]).timestamp ∧
      ([0, 1] : List Nat) = [0, 1] →
        signRequest "AK" sampleKey 1700000000000 "GET" "/p" [0, 1] =
          signRequest "AK" sampleKey 1700000000000 "GET" "/p" [0, 1]) :=
  ⟨rfl, fun _ =>
    (sign_request_deterministic_given_salt "AK" sampleKey 1700000000000 "GET"
      "/p" [0, 1] [0, 1]).2.2 rfl⟩

end CalciTrade
